import Mathlib

/-!
Verification of the batch summarization / corpus-synthesis pipeline of
`deep_research_reddit.py` (a Streamlit Reddit deep-research assistant).

The pipeline's pure data flow is shallowly embedded here:

* `RawThread` mirrors the dict built by `fetch_threads`.
* `summarise_threads` mirrors the batching loop: chunks of at most `batch`
  threads, one structured language-model call per chunk (modelled as an
  oracle from the payload mapping to the parsed JSON response), lenient
  merge of per-id summaries.
* `generate_report` mirrors corpus construction (join + hard 15000-char
  cutoff), the single synthesis call, and the `reflect_and_verify` pass.
  Language-model calls are modelled as an oracle `List Msg → Except String
  String` (`Except.error` models a raised exception propagating out of
  `openai.chat.completions.create`); each embedded stage additionally
  returns the list of message lists it sent, so that call counts are
  provable facts.
* Python string slicing `s[:n]` is modelled by `pySlice` (first `n` code
  points), `str.splitlines` by `pySplitlines`, `str.strip` by `pyStrip`,
  and `sep.join` by `joinSep`.

UI widgets, timers, progress callbacks, credentials, JSON (de)serialization
of the payload dict, and the Reddit client are external collaborators and
are not part of the embedded data flow.
-/

namespace DeepResearch

/-- A raw Reddit thread record: the dict appended by `fetch_threads`
(`id`, `title`, `body`, `comments`, `url`, `created`). -/
structure RawThread where
  id : String
  title : String
  body : String
  comments : String
  url : String
  created : String
deriving DecidableEq, Repr

/-- A JSON-object-shaped summary attached to a thread: a finite mapping from
keys (gist, insight1, insight2, sentiment) to strings, modelled as an
association list.  The empty list models the empty mapping `{}`. -/
abbrev Summary := List (String × String)

/-- Python `d.get(key, dflt)` on a `Summary` mapping. -/
def getStr (m : Summary) (key dflt : String) : String :=
  (m.lookup key).getD dflt

/-- A thread after the summarization stage: the raw record together with its
`summary` field (always present, possibly the empty mapping). -/
structure AnnotatedThread where
  thread : RawThread
  summary : Summary
deriving DecidableEq, Repr

/-- Python string slicing `s[:n]`: the first `n` characters (code points). -/
def pySlice (n : Nat) (s : String) : String :=
  ⟨s.data.take n⟩

/-- Fuel-driven helper for `chunks`; the fuel is the list length, enough for
any positive chunk size. -/
def chunksFuel (b : Nat) : Nat → List α → List (List α)
  | _, [] => []
  | 0, _ :: _ => []
  | fuel + 1, x :: xs => ((x :: xs).take b) :: chunksFuel b fuel ((x :: xs).drop b)

/-- The contiguous batches `threads[i:i+batch]` visited by the loop
`for i in range(0, total, batch)` in `summarise_threads`. -/
def chunks (b : Nat) (l : List α) : List (List α) :=
  chunksFuel b l.length l

/-- The per-thread text blob sent to the summarization call:
`t["title"] + "\n\n" + t["body"][:4000] + "\n\nComments:\n" + t["comments"][:6000]`. -/
def perThreadBlob (t : RawThread) : String :=
  t.title ++ "\n\n" ++ pySlice 4000 t.body ++ "\n\nComments:\n" ++ pySlice 6000 t.comments

/-- The payload mapping of one batch: thread id to per-thread blob, in chunk
order (the dict comprehension over `chunk` in `summarise_threads`). -/
def batchPayload (chunk : List RawThread) : List (String × String) :=
  chunk.map (fun t => (t.id, perThreadBlob t))

/-- An oracle standing for one `openai.chat.completions.create` call of the
summarization stage: it receives the batch payload mapping and yields the
parsed JSON response, a mapping from thread id to summary object (JSON
serialization of the payload is abstracted away). -/
abbrev SummarizeOracle := List (String × String) → List (String × Summary)

/-- The merge step for one batch: `t["summary"] = summaries.get(t["id"], {})`
for each thread of the chunk, in chunk order. -/
def mergeChunk (resp : List (String × Summary)) (chunk : List RawThread) :
    List AnnotatedThread :=
  chunk.map (fun t => ⟨t, (resp.lookup t.id).getD []⟩)

/-- The summarization stage `summarise_threads` (UI and throttling stripped):
partitions the threads into contiguous batches of at most `batch`, issues one
call per batch, and merges each response leniently.  Returns the annotated
sequence together with the list of payloads sent, one per issued call. -/
def summarise_threads (o : SummarizeOracle) (batch : Nat) (threads : List RawThread) :
    List AnnotatedThread × List (List (String × String)) :=
  ((chunks batch threads).flatMap (fun c => mergeChunk (o (batchPayload c)) c),
   (chunks batch threads).map batchPayload)

/-- Python `sep.join(parts)`: the parts concatenated with `sep` between
consecutive parts. -/
def joinSep (sep : String) : List String → String
  | [] => ""
  | [s] => s
  | s :: t :: rest => s ++ sep ++ joinSep sep (t :: rest)

/-- The per-thread corpus line rendered inside `generate_report`:
the f-string rendering title, gist (defaulting to the empty string when the
summary lacks the key) and a `[URL](url)` citation marker. -/
def corpusLine (t : AnnotatedThread) : String :=
  t.thread.title ++ " – " ++ getStr t.summary "gist" "" ++ " [URL](" ++ t.thread.url ++ ")"

/-- The corpus built at the start of `generate_report`: the per-thread lines
joined with a blank-line separator and hard-truncated to 15000 characters. -/
def buildCorpus (threads : List AnnotatedThread) : String :=
  pySlice 15000 (joinSep "\n\n" (threads.map corpusLine))

/-- One ordinal-marked question line of the question block:
the f-string rendering of the question at zero-based index `i`, marked with
`Q` followed by the one-based index and a dot. -/
def ordinalLine (i : Nat) (q : String) : String :=
  "Q" ++ toString (i + 1) ++ ". " ++ q

/-- The enumerated question lines, as produced by enumerate over the
questions starting at zero-based index `i`. -/
def ordinalLines (i : Nat) : List String → List String
  | [] => []
  | q :: rest => ordinalLine i q :: ordinalLines (i + 1) rest

/-- The question block `q_block` of `generate_report`: the ordinal-marked
question lines joined by newlines. -/
def qBlock (questions : List String) : String :=
  joinSep "\n" (ordinalLines 0 questions)

/-- One chat message (role and content). -/
structure Msg where
  role : String
  content : String
deriving DecidableEq, Repr

/-- The fixed system instruction of the synthesis call in `generate_report`. -/
def synthSystemContent : String :=
  "You are a senior story analyst. Answer each question in 1–2 concise paragraphs. " ++
  "After each key insight add a citation in the form [Title](URL). Create sections summarization of the entire reddit thread. Then provide 3 ACTIONABLE insights with evidence"

/-- The messages of the single synthesis call of `generate_report`. -/
def synthMsgs (threads : List AnnotatedThread) (questions : List String) : List Msg :=
  [⟨"system", synthSystemContent⟩,
   ⟨"assistant", "CORPUS (" ++ toString threads.length ++ " threads):\n" ++ buildCorpus threads⟩,
   ⟨"user", qBlock questions⟩]

/-- The fixed system instruction of the verification call in `reflect_and_verify`. -/
def verifySystemContent : String :=
  "You are a critical reviewer. Verify that every claim in the ANSWER is supported by the CORPUS. " ++
  "If something is unsupported, correct it. Produce a concise, coherent report using the same style, " ++
  "adding citations [Title](URL) after each key insight."

/-- The messages of the single verification call of `reflect_and_verify`. -/
def verifyMsgs (corpus report : String) : List Msg :=
  [⟨"system", verifySystemContent⟩,
   ⟨"assistant", "CORPUS:\n" ++ corpus⟩,
   ⟨"assistant", "ANSWER:\n" ++ report⟩]

/-- An oracle standing for `openai.chat.completions.create` in the report
stages: message list in, response text out; `Except.error` models a raised
exception propagating out of the call. -/
abbrev LMCall := List Msg → Except String String

/-- The verification pass `reflect_and_verify`: one call whose raw output is
returned unmodified; a call failure propagates. -/
def reflect_and_verify (call : LMCall) (report corpus : String) : Except String String :=
  call (verifyMsgs corpus report)

/-- The report stage `generate_report`: builds the corpus, issues the single
synthesis call, then passes the draft to `reflect_and_verify` and returns its
result verbatim as the final report.  Also returns the list of message lists
sent, one per issued call, in order. -/
def generate_report (call : LMCall) (threads : List AnnotatedThread)
    (questions : List String) : Except String String × List (List Msg) :=
  let corpus := buildCorpus threads
  let msgs := synthMsgs threads questions
  match call msgs with
  | Except.error e => (Except.error e, [msgs])
  | Except.ok draft => (reflect_and_verify call draft corpus, [msgs, verifyMsgs corpus draft])

/-- The synthesis system instruction used during a run with the given genre
input.  In `deep_research_reddit.py` the genre text box only selects the
default subreddit; `generate_report` does not receive the genre, so the
instruction is the fixed constant `synthSystemContent` whatever the genre. -/
def synthSystemContentForGenre (_genre : String) : String :=
  synthSystemContent

/-- Boolean substring test on the character lists of two strings. -/
def containsSub (s pat : String) : Bool :=
  decide (pat.data <:+: s.data)

/-- Splits a character list at newline characters; the result always has one
more entry than the number of newlines.  Used to express how many lines a
message content consists of. -/
def splitCharLines : List Char → List (List Char)
  | [] => [[]]
  | c :: cs =>
    if c = '\n' then [] :: splitCharLines cs
    else
      match splitCharLines cs with
      | [] => [[c]]
      | l :: ls => (c :: l) :: ls

/-- The lines of a string, splitting at every newline character. -/
def splitLines (s : String) : List String :=
  (splitCharLines s.data).map List.asString

/-- Whether a character is one of the line boundaries recognized by Python
`str.splitlines`. -/
def isPyLineBreak (c : Char) : Bool :=
  c = '\n' || c = '\r' || c = '\x0b' || c = '\x0c' ||
  c = '\x1c' || c = '\x1d' || c = '\x1e' || c = '\x85' ||
  c = '\u2028' || c = '\u2029'

/-- Accumulator-based core of Python `str.splitlines`: a CR-LF pair counts as
one boundary, a trailing boundary produces no extra empty line. -/
def pySplitlinesCore : List Char → List Char → List (List Char)
  | acc, [] => if acc.isEmpty then [] else [acc.reverse]
  | acc, '\r' :: '\n' :: rest => acc.reverse :: pySplitlinesCore [] rest
  | acc, c :: rest =>
    if isPyLineBreak c then acc.reverse :: pySplitlinesCore [] rest
    else pySplitlinesCore (c :: acc) rest

/-- Python `s.splitlines()`. -/
def pySplitlines (s : String) : List String :=
  (pySplitlinesCore [] s.data).map List.asString

/-- Whether a character is Python whitespace, as stripped by `str.strip()`. -/
def pyIsSpace (c : Char) : Bool :=
  c = ' ' || c = '\t' || c = '\n' || c = '\r' || c = '\x0b' || c = '\x0c' ||
  c = '\x1c' || c = '\x1d' || c = '\x1e' || c = '\x1f' || c = '\x85' || c = '\xa0' ||
  c = '\u1680' || ('\u2000' ≤ c && c ≤ '\u200a') || c = '\u2028' || c = '\u2029' ||
  c = '\u202f' || c = '\u205f' || c = '\u3000'

/-- Python `s.strip()`: leading and trailing whitespace removed. -/
def pyStrip (s : String) : String :=
  ⟨((s.data.dropWhile pyIsSpace).reverse.dropWhile pyIsSpace).reverse⟩

/-- The question list of the app: the stripped non-blank lines of the
question text area, capped at the first five. -/
def questionsOf (qsText : String) : List String :=
  ((pySplitlines qsText).filterMap
    (fun q => if pyStrip q = "" then none else some (pyStrip q))).take 5

/-- Whether a logged call is the synthesis call: its final message is the
user-facing question block (the verification call ends with an assistant
message instead). -/
def isSynthesisCall (msgs : List Msg) : Bool :=
  match msgs.getLast? with
  | some m => m.role == "user"
  | none => false

/-- Concrete sample thread used to instantiate theorems on concrete runs. -/
def rawA : RawThread := ⟨"idA", "Title A", "body A", "comments A", "http://a", "2025-01-01"⟩

/-- Second concrete sample thread. -/
def rawB : RawThread := ⟨"idB", "Title B", "body B", "comments B", "http://b", "2025-01-02"⟩

/-- Third concrete sample thread. -/
def rawC : RawThread := ⟨"idC", "Title C", "body C", "comments C", "http://c", "2025-01-03"⟩

/-- A concrete annotated thread with a gist in its summary. -/
def annA : AnnotatedThread := ⟨rawA, [("gist", "gist A")]⟩

/-- A concrete thread whose body is exactly 5000 characters long. -/
def bigBodyThread : RawThread :=
  ⟨"idD", "Big", ⟨List.replicate 5000 'x'⟩, "c", "http://d", "2025-01-04"⟩

/-- A summarization oracle answering every call with the empty mapping. -/
def emptySummaries : SummarizeOracle := fun _ => []

/-- A report-stage oracle whose synthesis call (final message role `user`)
succeeds with a fixed draft and whose verification call raises. -/
def failVerifyCall : LMCall := fun msgs =>
  match msgs with
  | [_, _, m] => if m.role = "user" then Except.ok "DRAFT" else Except.error "boom"
  | _ => Except.ok "DRAFT"

/-- A report-stage oracle answering every call with the fixed text REPORT. -/
def constReportCall : LMCall := fun _ => Except.ok "REPORT"

theorem chunksFuel_join {b : Nat} (hb : 0 < b) :
    ∀ (fuel : Nat) (l : List α), l.length ≤ fuel → (chunksFuel b fuel l).flatten = l := by
  intro fuel
  induction fuel with
  | zero =>
    intro l hl
    cases l with
    | nil => rfl
    | cons x xs => simp at hl
  | succ n ih =>
    intro l hl
    cases l with
    | nil => rfl
    | cons x xs =>
      simp only [chunksFuel, List.flatten_cons]
      rw [ih ((x :: xs).drop b)]
      · exact List.take_append_drop b (x :: xs)
      · have hd : ((x :: xs).drop b).length = (x :: xs).length - b := by simp
        simp only [List.length_cons] at hl hd ⊢
        omega

theorem chunks_join {b : Nat} (hb : 0 < b) (l : List α) :
    (chunks b l).flatten = l :=
  chunksFuel_join hb l.length l (Nat.le_refl _)

theorem chunksFuel_length {b : Nat} (hb : 0 < b) :
    ∀ (fuel : Nat) (l : List α), l.length ≤ fuel →
      (chunksFuel b fuel l).length = (l.length + b - 1) / b := by
  intro fuel
  induction fuel with
  | zero =>
    intro l hl
    cases l with
    | nil =>
      simp only [chunksFuel, List.length_nil, List.length, Nat.zero_add]
      exact (Nat.div_eq_of_lt (by omega)).symm
    | cons x xs => simp at hl
  | succ n ih =>
    intro l hl
    cases l with
    | nil =>
      simp only [chunksFuel, List.length_nil, List.length, Nat.zero_add]
      exact (Nat.div_eq_of_lt (by omega)).symm
    | cons x xs =>
      simp only [chunksFuel, List.length_cons]
      rw [ih ((x :: xs).drop b)]
      · have hdrop : ((x :: xs).drop b).length = xs.length + 1 - b := by simp
        rw [hdrop]
        rcases le_or_lt b (xs.length + 1) with hle | hgt
        · have h1 : xs.length + 1 - b + b - 1 = xs.length := by omega
          have h2 : xs.length + 1 + b - 1 = (xs.length + 1 - 1) + b := by omega
          rw [h1, h2, Nat.add_div_right _ hb]
          have h3 : xs.length + 1 - 1 = xs.length := by omega
          rw [h3]
        · have h1 : xs.length + 1 - b = 0 := by omega
          rw [h1]
          have h2 : 0 + b - 1 = b - 1 := by omega
          have h3 : (b - 1) / b = 0 := Nat.div_eq_of_lt (by omega)
          have h4 : xs.length + 1 + b - 1 = xs.length + b := by omega
          have h5 : (xs.length + b) / b = xs.length / b + 1 := Nat.add_div_right _ hb
          have h6 : xs.length / b = 0 := Nat.div_eq_of_lt (by omega)
          rw [h2, h3, h4, h5, h6]
      · have hd : ((x :: xs).drop b).length = (x :: xs).length - b := by simp
        simp only [List.length_cons] at hl hd ⊢
        omega

theorem chunksFuel_mem_length {b : Nat} :
    ∀ (fuel : Nat) (l : List α), ∀ c ∈ chunksFuel b fuel l, c.length ≤ b := by
  intro fuel
  induction fuel with
  | zero =>
    intro l c hc
    cases l with
    | nil => simp [chunksFuel] at hc
    | cons x xs => simp [chunksFuel] at hc
  | succ n ih =>
    intro l c hc
    cases l with
    | nil => simp [chunksFuel] at hc
    | cons x xs =>
      simp only [chunksFuel, List.mem_cons] at hc
      rcases hc with hc | hc
      · rw [hc]
        exact List.length_take_le b (x :: xs)
      · exact ih _ c hc

theorem mergeChunk_map_thread (resp : List (String × Summary)) (chunk : List RawThread) :
    (mergeChunk resp chunk).map AnnotatedThread.thread = chunk := by
  simp [mergeChunk, List.map_map, Function.comp_def]

theorem summarise_threads_map_thread (o : SummarizeOracle) {batch : Nat}
    (hb : 0 < batch) (threads : List RawThread) :
    (summarise_threads o batch threads).1.map AnnotatedThread.thread = threads := by
  simp only [summarise_threads, List.map_flatMap]
  have h1 : ∀ c : List RawThread,
      (fun c => (mergeChunk (o (batchPayload c)) c).map AnnotatedThread.thread) c = c := by
    intro c
    exact mergeChunk_map_thread _ _
  calc (chunks batch threads).flatMap
        (fun c => (mergeChunk (o (batchPayload c)) c).map AnnotatedThread.thread)
      = (chunks batch threads).flatMap (fun c => c) := by
        apply List.flatMap_congr
        intro c _
        exact mergeChunk_map_thread _ _
    _ = (chunks batch threads).flatten := by
        rw [show (fun c : List RawThread => c) = id from rfl, List.flatMap_id]
    _ = threads := chunks_join hb threads

theorem splitCharLines_ne_nil (l : List Char) : splitCharLines l ≠ [] := by
  induction l with
  | nil => simp [splitCharLines]
  | cons c cs ih =>
    simp only [splitCharLines]
    split
    · simp
    · cases h : splitCharLines cs with
      | nil => simp
      | cons a as => simp

theorem splitCharLines_of_no_newline {l : List Char} (h : '\n' ∉ l) :
    splitCharLines l = [l] := by
  induction l with
  | nil => rfl
  | cons c cs ih =>
    simp only [List.mem_cons, not_or] at h
    have hc : ¬(c = '\n') := fun hcn => h.1 hcn.symm
    simp only [splitCharLines, if_neg hc, ih h.2]

theorem splitCharLines_append_newline {a : List Char} (b : List Char) (h : '\n' ∉ a) :
    splitCharLines (a ++ '\n' :: b) = a :: splitCharLines b := by
  induction a with
  | nil => simp [splitCharLines]
  | cons c cs ih =>
    simp only [List.mem_cons, not_or] at h
    have hc : ¬(c = '\n') := fun hcn => h.1 hcn.symm
    simp only [List.cons_append, splitCharLines, if_neg hc]
    rw [List.append_eq, ih h.2]

theorem joinSep_data_cons_cons (sep : String) (p q : String) (rest : List String) :
    (joinSep sep (p :: q :: rest)).data =
      p.data ++ sep.data ++ (joinSep sep (q :: rest)).data := by
  simp only [joinSep, String.data_append]

theorem splitLines_joinSep (parts : List String) (hne : parts ≠ [])
    (h : ∀ p ∈ parts, '\n' ∉ p.data) :
    splitLines (joinSep "\n" parts) = parts := by
  induction parts with
  | nil => exact absurd rfl hne
  | cons p rest ih =>
    cases rest with
    | nil =>
      simp only [joinSep, splitLines]
      rw [splitCharLines_of_no_newline (h p (by simp))]
      simp [List.asString]
    | cons q rest2 =>
      have hdata : (joinSep "\n" (p :: q :: rest2)).data =
          p.data ++ '\n' :: (joinSep "\n" (q :: rest2)).data := by
        rw [joinSep_data_cons_cons]
        simp [String.data]
      simp only [splitLines, hdata]
      rw [splitCharLines_append_newline _ (h p (by simp))]
      simp only [List.map_cons]
      have hrest : (splitCharLines (joinSep "\n" (q :: rest2)).data).map List.asString =
          q :: rest2 := by
        have hih := ih (by simp) (fun x hx => h x (List.mem_cons_of_mem p hx))
        simpa [splitLines] using hih
      rw [hrest]
      simp [List.asString]

theorem digitChar_ne_newline (m : Nat) : Nat.digitChar m ≠ '\n' := by
  rcases Nat.lt_or_ge m 16 with hm | hm
  · interval_cases m <;> decide
  · have hstar : Nat.digitChar m = '*' := by
      unfold Nat.digitChar
      repeat rw [if_neg (by omega)]
    rw [hstar]
    decide

theorem toDigitsCore_ne_newline (base : Nat) :
    ∀ (fuel n : Nat) (ds : List Char), '\n' ∉ ds →
      '\n' ∉ Nat.toDigitsCore base fuel n ds := by
  intro fuel
  induction fuel with
  | zero => intro n ds h; exact h
  | succ k ih =>
    intro n ds h
    simp only [Nat.toDigitsCore]
    split
    · intro hmem
      rcases List.mem_cons.mp hmem with hd | hds
      · exact digitChar_ne_newline (n % base) hd.symm
      · exact h hds
    · apply ih
      intro hmem
      rcases List.mem_cons.mp hmem with hd | hds
      · exact digitChar_ne_newline (n % base) hd.symm
      · exact h hds

theorem natRepr_no_newline (n : Nat) : '\n' ∉ (Nat.repr n).data := by
  show '\n' ∉ (Nat.toDigits 10 n).asString.data
  have hid : (Nat.toDigits 10 n).asString.data = Nat.toDigits 10 n := rfl
  rw [hid]
  exact toDigitsCore_ne_newline 10 (n + 1) n [] (by simp)

theorem ordinalLine_no_newline (i : Nat) {q : String} (h : '\n' ∉ q.data) :
    '\n' ∉ (ordinalLine i q).data := by
  have hdata : (ordinalLine i q).data =
      ("Q" : String).data ++ (Nat.repr (i + 1)).data ++ (". " : String).data ++ q.data := by
    simp only [ordinalLine, String.data_append]
    rfl
  rw [hdata]
  intro hmem
  rcases List.mem_append.mp hmem with hmem1 | hq
  · rcases List.mem_append.mp hmem1 with hmem2 | hdot
    · rcases List.mem_append.mp hmem2 with hQ | hrep
      · simp [String.data] at hQ
      · exact natRepr_no_newline (i + 1) hrep
    · simp [String.data] at hdot
  · exact h hq

theorem ordinalLines_no_newline {qs : List String} (h : ∀ q ∈ qs, '\n' ∉ q.data) :
    ∀ i, ∀ p ∈ ordinalLines i qs, '\n' ∉ p.data := by
  induction qs with
  | nil => intro i p hp; simp [ordinalLines] at hp
  | cons q rest ih =>
    intro i p hp
    rcases List.mem_cons.mp hp with hp1 | hp2
    · rw [hp1]
      exact ordinalLine_no_newline i (h q (by simp))
    · exact ih (fun x hx => h x (List.mem_cons_of_mem q hx)) (i + 1) p hp2

theorem ordinalLines_length (qs : List String) : ∀ i, (ordinalLines i qs).length = qs.length := by
  induction qs with
  | nil => intro i; rfl
  | cons q rest ih => intro i; simp [ordinalLines, ih]

theorem ordinalLines_getElem (qs : List String) :
    ∀ (base j : Nat), (ordinalLines base qs)[j]? = (qs[j]?).map (ordinalLine (base + j)) := by
  induction qs with
  | nil => intro base j; simp [ordinalLines]
  | cons q rest ih =>
    intro base j
    cases j with
    | zero => simp [ordinalLines]
    | succ k =>
      simp only [ordinalLines, List.getElem?_cons_succ]
      rw [ih (base + 1) k]
      have hbk : base + 1 + k = base + (k + 1) := by omega
      rw [hbk]

theorem filterMap_strip_eq (l : List String) :
    l.filterMap (fun q => if pyStrip q = "" then none else some (pyStrip q)) =
      (l.map pyStrip).filter (fun q => q != "") := by
  induction l with
  | nil => rfl
  | cons q rest ih =>
    simp only [List.filterMap_cons, List.map_cons, List.filter_cons]
    by_cases h : pyStrip q = ""
    · rw [if_pos h]
      have hb : (pyStrip q != "") = false := by simp [h]
      rw [hb]
      simpa using ih
    · rw [if_neg h]
      have hb : (pyStrip q != "") = true := by simpa using h
      rw [hb]
      simpa using ih

theorem isSynthesisCall_synthMsgs (threads : List AnnotatedThread) (questions : List String) :
    isSynthesisCall (synthMsgs threads questions) = true := by
  simp [isSynthesisCall, synthMsgs]

theorem isSynthesisCall_verifyMsgs (corpus report : String) :
    isSynthesisCall (verifyMsgs corpus report) = false := by
  simp [isSynthesisCall, verifyMsgs]

/-- C1: for every thread sequence and positive batch size, `summarise_threads`
partitions the sequence into contiguous batches of at most `b` elements,
issues exactly ceil(n/b) language-model calls (one per batch), and its output
carries every input thread, in order, each paired with a (possibly empty)
summary mapping. -/
theorem C1_summarise_batching (o : SummarizeOracle) (b : Nat) (threads : List RawThread)
    (hb : 0 < b) :
    (summarise_threads o b threads).2.length = (threads.length + b - 1) / b ∧
    (∀ c ∈ chunks b threads, c.length ≤ b) ∧
    (chunks b threads).flatten = threads ∧
    (summarise_threads o b threads).1.map AnnotatedThread.thread = threads := by
  refine ⟨?_, ?_, chunks_join hb threads, summarise_threads_map_thread o hb threads⟩
  · simp only [summarise_threads, List.length_map]
    exact chunksFuel_length hb threads.length threads (Nat.le_refl _)
  · exact chunksFuel_mem_length threads.length threads

theorem C1_summarise_batching_witness :
    0 < 2 ∧
    ((summarise_threads emptySummaries 2 [rawA, rawB, rawC]).2.length =
        ([rawA, rawB, rawC].length + 2 - 1) / 2 ∧
      (∀ c ∈ chunks 2 [rawA, rawB, rawC], c.length ≤ 2) ∧
      (chunks 2 [rawA, rawB, rawC]).flatten = [rawA, rawB, rawC] ∧
      (summarise_threads emptySummaries 2 [rawA, rawB, rawC]).1.map AnnotatedThread.thread =
        [rawA, rawB, rawC]) :=
  ⟨by decide, C1_summarise_batching emptySummaries 2 [rawA, rawB, rawC] (by decide)⟩

/-- C2: the corpus is always at most 15000 characters long; it is exactly the
15000-character hard cutoff of the per-thread renderings (title, gist
defaulting to empty, URL citation) joined by blank lines, and when the
untruncated rendering fits within the bound, the corpus equals it exactly. -/
theorem C2_buildCorpus_bound (threads : List AnnotatedThread) :
    (buildCorpus threads).length ≤ 15000 ∧
    buildCorpus threads = pySlice 15000 (joinSep "\n\n" (threads.map corpusLine)) ∧
    ((joinSep "\n\n" (threads.map corpusLine)).length ≤ 15000 →
      buildCorpus threads = joinSep "\n\n" (threads.map corpusLine)) := by
  refine ⟨?_, rfl, ?_⟩
  · show (pySlice 15000 (joinSep "\n\n" (threads.map corpusLine))).length ≤ 15000
    simp only [pySlice, String.length, List.length_take]
    omega
  · intro h
    show pySlice 15000 (joinSep "\n\n" (threads.map corpusLine)) =
      joinSep "\n\n" (threads.map corpusLine)
    simp only [pySlice]
    have hd : (joinSep "\n\n" (threads.map corpusLine)).data.length ≤ 15000 := h
    rw [List.take_of_length_le hd]

set_option maxRecDepth 4000 in
theorem C2_buildCorpus_bound_witness :
    (joinSep "\n\n" ([annA].map corpusLine)).length ≤ 15000 ∧
    buildCorpus [annA] = joinSep "\n\n" ([annA].map corpusLine) :=
  ⟨by decide, (C2_buildCorpus_bound [annA]).2.2 (by decide)⟩

/-- C3: lenient merge — in any batch, a thread whose id is absent from the
parsed structured response is assigned the empty mapping as its summary, at
its own position; the merge is a total function, so no error is raised for
missing per-id entries. -/
theorem C3_lenient_merge (resp : List (String × Summary)) (chunk : List RawThread)
    (i : Nat) (t : RawThread) (hi : chunk[i]? = some t)
    (hmiss : resp.lookup t.id = none) :
    (mergeChunk resp chunk)[i]? = some ⟨t, []⟩ := by
  simp [mergeChunk, List.getElem?_map, hi, hmiss]

theorem C3_lenient_merge_witness :
    ([("idB", [("gist", "gb")])] : List (String × Summary)).lookup rawA.id = none ∧
    (mergeChunk [("idB", [("gist", "gb")])] [rawA, rawB])[0]? = some ⟨rawA, []⟩ :=
  ⟨by decide,
   C3_lenient_merge [("idB", [("gist", "gb")])] [rawA, rawB] 0 rawA (by decide) (by decide)⟩

/-- C4, evaluated at a failing input: `generate_report` returns the verifier
output verbatim as the final report.  In a run over one thread whose title is
"Title A", with the verifier yielding "REPORT", the final report is exactly
"REPORT": it contains no References heading and no `* [title](url)` bullet
for the thread — the code never builds or appends a references section. -/
theorem C4_no_references_appended :
    (generate_report constReportCall [annA] ["q1"]).1 = Except.ok "REPORT" ∧
    containsSub "REPORT" "References" = false ∧
    containsSub "REPORT" ("* [" ++ annA.thread.title ++ "](" ++ annA.thread.url ++ ")") = false :=
  ⟨rfl, by decide, by decide⟩

/-- C5: no stage reorders, sorts, or deduplicates — the batches of the
summarization stage are contiguous and concatenate back to the input in
order, the summarized output lists the threads in input order, and the
corpus string is the order-preserving per-thread rendering of the sequence
(truncated at the end, never resorted). -/
theorem C5_order_preservation (o : SummarizeOracle) (b : Nat) (threads : List RawThread)
    (ats : List AnnotatedThread) (hb : 0 < b) :
    (chunks b threads).flatten = threads ∧
    (summarise_threads o b threads).1.map AnnotatedThread.thread = threads ∧
    buildCorpus ats = pySlice 15000 (joinSep "\n\n" (ats.map corpusLine)) :=
  ⟨chunks_join hb threads, summarise_threads_map_thread o hb threads, rfl⟩

theorem C5_order_preservation_witness :
    (chunks 2 [rawA, rawB, rawC]).flatten = [rawA, rawB, rawC] ∧
    (summarise_threads emptySummaries 2 [rawA, rawB, rawC]).1.map AnnotatedThread.thread =
      [rawA, rawB, rawC] ∧
    buildCorpus [annA] = pySlice 15000 (joinSep "\n\n" ([annA].map corpusLine)) :=
  C5_order_preservation emptySummaries 2 [rawA, rawB, rawC] [annA] (by decide)

/-- C6: the per-thread blob sent to the summarization call is the title, the
body hard-truncated to its first 4000 characters, and the comments
hard-truncated to their first 6000 characters — raw character-count cutoffs;
a 5000-character body contributes exactly its first 4000 characters. -/
theorem C6_blob_truncation (t : RawThread) :
    perThreadBlob t =
      t.title ++ "\n\n" ++ pySlice 4000 t.body ++ "\n\nComments:\n" ++ pySlice 6000 t.comments ∧
    (pySlice 4000 t.body).data = t.body.data.take 4000 ∧
    (pySlice 6000 t.comments).data = t.comments.data.take 6000 ∧
    (pySlice 4000 t.body).length = min 4000 t.body.length ∧
    (t.body.length = 5000 → (pySlice 4000 t.body).length = 4000) := by
  refine ⟨rfl, rfl, rfl, ?_, ?_⟩
  · simp only [pySlice, String.length, List.length_take]
  · intro h
    have hd : t.body.data.length = 5000 := h
    simp only [pySlice, String.length, List.length_take, hd]
    omega

theorem C6_blob_truncation_witness :
    bigBodyThread.body.length = 5000 ∧ (pySlice 4000 bigBodyThread.body).length = 4000 := by
  have hlen : bigBodyThread.body.length = 5000 :=
    List.length_replicate 5000 'x'
  exact ⟨hlen, (C6_blob_truncation bigBodyThread).2.2.2.2 hlen⟩

/-- C7: when the synthesis call succeeds and the verification call fails, the
pipeline propagates the error to the caller: `generate_report` surfaces the
failure and never yields an empty report in place of the computed draft. -/
theorem C7_verify_failure_propagates (call : LMCall) (threads : List AnnotatedThread)
    (questions : List String) (draft e : String)
    (hok : call (synthMsgs threads questions) = Except.ok draft)
    (hfail : call (verifyMsgs (buildCorpus threads) draft) = Except.error e) :
    (generate_report call threads questions).1 = Except.error e ∧
    (generate_report call threads questions).1 ≠ Except.ok "" := by
  have h1 : (generate_report call threads questions).1 = Except.error e := by
    simp only [generate_report, hok, reflect_and_verify, hfail]
  exact ⟨h1, by simp [h1]⟩

theorem C7_verify_failure_propagates_witness :
    (generate_report failVerifyCall [annA] ["q1"]).1 = Except.error "boom" ∧
    (generate_report failVerifyCall [annA] ["q1"]).1 ≠ Except.ok "" :=
  C7_verify_failure_propagates failVerifyCall [annA] ["q1"] "DRAFT" "boom" (by rfl) (by rfl)

set_option maxRecDepth 100000 in
/-- C8 counterexample: the system instruction of the synthesis call is
identical for two different genres and never mentions the genre — it does not
depend on the genre argument, refuting the claim that it frames the assistant
as a domain analyst for the given genre. -/
theorem C8_genre_counterexample :
    synthSystemContentForGenre "horror" = synthSystemContentForGenre "sci-fi" ∧
    containsSub (synthSystemContentForGenre "horror") "horror" = false :=
  ⟨rfl, by decide⟩

set_option maxRecDepth 100000 in
/-- C8 amended: the system instruction of the synthesis call is the fixed
constant `synthSystemContent`, independent of the genre; it frames the
assistant as a senior story analyst and is the first message of the single
synthesis call. -/
theorem C8_fixed_instruction (g g' : String) (threads : List AnnotatedThread)
    (questions : List String) :
    synthSystemContentForGenre g = synthSystemContentForGenre g' ∧
    synthSystemContentForGenre g = synthSystemContent ∧
    (synthMsgs threads questions).head? = some ⟨"system", synthSystemContent⟩ ∧
    containsSub synthSystemContent "You are a senior story analyst" = true :=
  ⟨rfl, rfl, rfl, by decide⟩

/-- C9: the synthesis call's final user content is exactly the supplied
questions, one line per question, in input order, the line of the i-th
(zero-based) question carrying the ordinal marker `Q(i+1).`; and exactly one
synthesis call (the logged call ending in the user request) is issued per
run, whatever the oracle answers. -/
theorem C9_question_lines (call : LMCall) (threads : List AnnotatedThread)
    (questions : List String) (hne : questions ≠ [])
    (hq : ∀ q ∈ questions, '\n' ∉ q.data) :
    (synthMsgs threads questions).getLast? = some ⟨"user", qBlock questions⟩ ∧
    splitLines (qBlock questions) = ordinalLines 0 questions ∧
    (splitLines (qBlock questions)).length = questions.length ∧
    (∀ i, (ordinalLines 0 questions)[i]? = (questions[i]?).map (ordinalLine i)) ∧
    ((generate_report call threads questions).2.filter isSynthesisCall).length = 1 := by
  have hparts : splitLines (qBlock questions) = ordinalLines 0 questions := by
    unfold qBlock
    apply splitLines_joinSep
    · intro hnil
      have hl := ordinalLines_length questions 0
      rw [hnil] at hl
      exact hne (List.length_eq_zero.mp hl.symm)
    · exact ordinalLines_no_newline hq 0
  refine ⟨by simp [synthMsgs], hparts, ?_, ?_, ?_⟩
  · rw [hparts, ordinalLines_length]
  · intro i
    have hh := ordinalLines_getElem questions 0 i
    simpa using hh
  · cases hc : call (synthMsgs threads questions) with
    | error e =>
      simp only [generate_report, hc]
      simp [isSynthesisCall_synthMsgs]
    | ok draft =>
      simp only [generate_report, hc]
      simp [isSynthesisCall_synthMsgs, isSynthesisCall_verifyMsgs, reflect_and_verify]

theorem C9_question_lines_witness :
    (["qa", "qb"] : List String) ≠ [] ∧
    splitLines (qBlock ["qa", "qb"]) = ordinalLines 0 ["qa", "qb"] ∧
    ((generate_report constReportCall [annA] ["qa", "qb"]).2.filter isSynthesisCall).length = 1 :=
  ⟨by decide,
   (C9_question_lines constReportCall [annA] ["qa", "qb"] (by decide) (by decide)).2.1,
   (C9_question_lines constReportCall [annA] ["qa", "qb"] (by decide) (by decide)).2.2.2.2⟩

/-- C10: the question list handed to report generation is the stripped
non-blank lines of the text area, in order, truncated to the first five; it
never contains more than five entries, and lines beyond the fifth are
silently discarded (a seven-line input yields exactly its first five lines). -/
theorem C10_questions_capped (s : String) :
    (questionsOf s).length ≤ 5 ∧
    questionsOf s = (((pySplitlines s).map pyStrip).filter (fun q => q != "")).take 5 ∧
    questionsOf "q1\nq2\nq3\nq4\nq5\nq6\nq7" = ["q1", "q2", "q3", "q4", "q5"] := by
  refine ⟨?_, ?_, by decide⟩
  · exact List.length_take_le 5 _
  · simp only [questionsOf, filterMap_strip_eq]

end DeepResearch
